import Mathlib

/-!
Shallow embedding of the RESP codec from `src/resp.rs` and the command
extraction from `src/connection.rs`, together with proofs about the claims
of the specification.

Buffers (`bytes::Bytes`) are modelled as `List Nat` of byte values.  Rust
`String`s are modelled by the list of their UTF-8 bytes (validity is checked
at each `String::from_utf8` site, exactly as the code does).  The parsing
functions of `resp.rs` take `&mut Bytes` and return
`Result<(Value, Bytes)>`; we model them as functions returning a pair of
 - the outcome (`ParseOutcome`): success with the value and the returned
   leftover, a failure mirroring each `bail!` site, or a panic for the
   `unwrap()` in `parse_number`;
 - the final state of the `&mut` buffer seen by the caller.
Recursion between `parse_resp` and `parse_array` goes through nesting depth,
so the Lean model threads a fuel argument that decreases once per
`parse_resp` entry; `ParseOutcome.nofuel` marks fuel exhaustion and never
occurs for sufficiently large fuel.
-/

namespace Resp

/-- Model of `find_crlf` in `src/resp.rs`: index of the first 2-byte window
equal to `"\r\n"` (`buf.windows(2).position(..)`). -/
def find_crlf : List Nat → Option Nat
  | b0 :: b1 :: rest =>
    if b0 = 13 ∧ b1 = 10 then some 0
    else (find_crlf (b1 :: rest)).map (fun p => p + 1)
  | _ => none

/-- Lower bound for the first continuation byte after lead byte `b` (UTF-8
forbids overlong encodings: `E0` needs `A0..`, `F0` needs `90..`). -/
def utf8Lo (b : Nat) : Nat := if b = 224 then 160 else if b = 240 then 144 else 128

/-- Upper bound for the first continuation byte after lead byte `b` (UTF-8
forbids surrogates after `ED` and values above `U+10FFFF` after `F4`). -/
def utf8Hi (b : Nat) : Nat := if b = 237 then 159 else if b = 244 then 143 else 191

mutual

/-- Strict UTF-8 validity of a byte list, as checked by Rust's
`String::from_utf8` (rejects overlong forms, surrogates and values above
`U+10FFFF`). -/
def utf8Valid : List Nat → Bool
  | [] => true
  | b :: rest =>
    if b < 128 then utf8Valid rest
    else if b < 194 then false
    else if b ≤ 223 then utf8Tail1 b rest
    else if b ≤ 239 then utf8Tail2 b rest
    else if b ≤ 244 then utf8Tail3 b rest
    else false

/-- One continuation byte after lead `b`, then a valid remainder. -/
def utf8Tail1 (b : Nat) : List Nat → Bool
  | b1 :: r => (utf8Lo b ≤ b1 && b1 ≤ utf8Hi b) && utf8Valid r
  | [] => false

/-- Two continuation bytes after lead `b`, then a valid remainder. -/
def utf8Tail2 (b : Nat) : List Nat → Bool
  | b1 :: b2 :: r =>
    (utf8Lo b ≤ b1 && b1 ≤ utf8Hi b) && (128 ≤ b2 && b2 ≤ 191) && utf8Valid r
  | _ => false

/-- Three continuation bytes after lead `b`, then a valid remainder. -/
def utf8Tail3 (b : Nat) : List Nat → Bool
  | b1 :: b2 :: b3 :: r =>
    (utf8Lo b ≤ b1 && b1 ≤ utf8Hi b) && (128 ≤ b2 && b2 ≤ 191) &&
      (128 ≤ b3 && b3 ≤ 191) && utf8Valid r
  | _ => false

end

/-- A byte that is an ASCII decimal digit. -/
def isDigitB (b : Nat) : Bool := 48 ≤ b && b ≤ 57

/-- Value of a list of ASCII digit bytes, most significant first. -/
def digitsVal (l : List Nat) : Nat := l.foldl (fun a b => a * 10 + (b - 48)) 0

/-- Helper for `fromStrRadix10`: parse a run of decimal digits with the given
sign, enforcing the `i64` range exactly as Rust's checked accumulation does
(overflow reports an error, here `none`). -/
def fromDigits (neg : Bool) (digits : List Nat) : Option Int :=
  if digits = [] then none
  else if digits.all isDigitB then
    let n : Int := if neg then -(digitsVal digits : Int) else (digitsVal digits : Int)
    if -(2 ^ 63) ≤ n ∧ n ≤ 2 ^ 63 - 1 then some n else none
  else none

/-- Model of `i64::from_str_radix(s, 10)` on the UTF-8 bytes of `s`: an
optional leading `+` or `-` followed by at least one ASCII digit, failing on
empty input, any non-digit, or `i64` overflow. -/
def fromStrRadix10 (s : List Nat) : Option Int :=
  match s with
  | [] => none
  | b :: rest =>
    if b = 43 then fromDigits false rest
    else if b = 45 then fromDigits true rest
    else fromDigits false s

/-- The value of `n as i64` for a Rust `usize` value `n` (two's-complement
truncation to 64 bits, read back as a signed value). -/
def i64ofNat (n : Nat) : Int := ((n : Int) + 2 ^ 63) % 2 ^ 64 - 2 ^ 63

/-- Model of `enum Value` in `src/resp.rs`.  `String`/`Error` payloads are
the UTF-8 bytes of the Rust `String`. -/
inductive Value where
  | string (s : List Nat)
  | number (n : Int)
  | bulk (size : Int) (data : List Nat)
  | error (msg : List Nat)
  | array (len : Int) (elements : List Value)

/-- One structured error per `bail!` / `?` failure site of `src/resp.rs`. -/
inductive ParseError where
  | emptyBuffer
  | unknownKind (b : Nat)
  | stringMissingCrlf
  | stringInvalidUtf8
  | numberNotString
  | arrayMissingLen
  | arrayLenNotNumber
  | bulkMissingSize
  | bulkSizeNotNumber
  | bulkOverrun (size bufferSize : Int)
  | bulkNegativeSize
  | bulkMissingCrlf
deriving DecidableEq, Repr

/-- Outcome of a parse call: success carries the `(Value, Bytes)` pair the
Rust functions return (`type ParserState`); `panicked` models the
`.unwrap()` panic inside `parse_number`; `nofuel` is the artificial fuel
exhaustion marker of the embedding. -/
inductive ParseOutcome where
  | ok (v : Value) (rest : List Nat)
  | fail (e : ParseError)
  | panicked
  | nofuel

/-- Outcome of the element loop in `parse_array`. -/
inductive ElemsOutcome where
  | ok (elements : List Value) (leftover : List Nat)
  | fail (e : ParseError)
  | panicked
  | nofuel

/-- Model of `parse_string` in `src/resp.rs`.  On success the mutated buffer
holds exactly the 2-byte terminator (after `split_to(pos)` then
`split_off(2)`), and the returned leftover is everything after it. -/
def parse_string (buf : List Nat) : ParseOutcome × List Nat :=
  match find_crlf buf with
  | some pos =>
    if utf8Valid (buf.take pos) then
      (.ok (.string (buf.take pos)) ((buf.drop pos).drop 2), (buf.drop pos).take 2)
    else (.fail .stringInvalidUtf8, buf.drop pos)
  | none => (.fail .stringMissingCrlf, buf)

/-- Model of `parse_number` in `src/resp.rs`: parse a string, then
`i64::from_str_radix(&value, 10).unwrap()` — the `unwrap` panics on
non-numeric text. -/
def parse_number (buf : List Nat) : ParseOutcome × List Nat :=
  match parse_string buf with
  | (.ok (.string s) rest, b) =>
    match fromStrRadix10 s with
    | some n => (.ok (.number n) rest, b)
    | none => (.panicked, b)
  | (.ok _ _, b) => (.fail .numberNotString, b)
  | (r, b) => (r, b)

/-- Model of `parse_bulk_string` in `src/resp.rs`.  The capacity check uses
the `rest.len() as i64` cast; `size.try_into()` fails for negative sizes;
the leftover is everything past the first `"\r\n"` found after the data. -/
def parse_bulk_string (buf : List Nat) : ParseOutcome × List Nat :=
  if buf.length < 1 then (.fail .bulkMissingSize, buf)
  else match parse_number buf with
  | (.ok (.number size) rest, b) =>
    if i64ofNat rest.length - 2 < size then
      (.fail (.bulkOverrun size (i64ofNat rest.length)), b)
    else if size < 0 then (.fail .bulkNegativeSize, b)
    else
      match find_crlf (rest.drop size.toNat) with
      | some end_pos =>
        (.ok (.bulk size (rest.take size.toNat)) ((rest.drop size.toNat).drop (end_pos + 2)), b)
      | none => (.fail .bulkMissingCrlf, b)
  | (.ok _ _, b) => (.fail .bulkSizeNotNumber, b)
  | (r, b) => (r, b)

/-- The `for _ in 0..len` loop of `parse_array`, abstracted over the parser
`p` used for each element (instantiated with `parse_resp fuel`).  Each
failing child parse propagates immediately; values accumulate in order. -/
def parseElemsF (p : List Nat → ParseOutcome × List Nat) :
    Nat → List Nat → ElemsOutcome
  | 0, buf => .ok [] buf
  | count + 1, buf =>
    match p buf with
    | (.ok v rest, _) =>
      match parseElemsF p count rest with
      | .ok els leftover => .ok (v :: els) leftover
      | r => r
    | (.fail e, _) => .fail e
    | (.panicked, _) => .panicked
    | (.nofuel, _) => .nofuel

/-- Model of `parse_array` in `src/resp.rs`, abstracted over the element
parser (the recursive `parse_resp` call, threaded via fuel). -/
def parse_array (p : List Nat → ParseOutcome × List Nat) (buf : List Nat) :
    ParseOutcome × List Nat :=
  if buf.length < 1 then (.fail .arrayMissingLen, buf)
  else match parse_number buf with
  | (.ok (.number len) rest, b) =>
    match parseElemsF p len.toNat rest with
    | .ok elements leftover => (.ok (.array len elements) leftover, b)
    | .fail e => (.fail e, b)
    | .panicked => (.panicked, b)
    | .nofuel => (.nofuel, b)
  | (.ok _ _, b) => (.fail .arrayLenNotNumber, b)
  | (r, b) => (r, b)

/-- Model of `parse_resp` in `src/resp.rs`: the public entry point.  An
empty buffer fails with `emptyBuffer`; otherwise exactly one tag byte is
consumed (`Bytes::split_to(buf, 1)`) and dispatched; an unknown tag fails
with the offending byte, leaving the remainder in the mutated buffer. -/
def parse_resp : Nat → List Nat → ParseOutcome × List Nat
  | 0 => fun buf => (.nofuel, buf)
  | fuel + 1 => fun buf =>
    match buf with
    | [] => (.fail .emptyBuffer, [])
    | b :: rest =>
      if b = 43 then parse_string rest
      else if b = 42 then parse_array (parse_resp fuel) rest
      else if b = 58 then parse_number rest
      else if b = 36 then parse_bulk_string rest
      else (.fail (.unknownKind b), rest)

/-- Failure of `Value::as_string` in `src/resp.rs`: the `String::from_utf8`
error on a bulk payload, or the `bail!` for non-string variants. -/
inductive AsStringErr where
  | invalidUtf8
  | notConvertible

/-- Model of `Value::as_string` in `src/resp.rs`: `String` values yield their
text, `Bulk` values must decode as UTF-8, everything else fails. -/
def as_string : Value → Except AsStringErr (List Nat)
  | .string s => .ok s
  | .bulk _ data => if utf8Valid data then .ok data else .error .invalidUtf8
  | _ => .error .notConvertible

/-- Model of `str::to_ascii_uppercase` on the UTF-8 bytes of a string: the
bytes of ASCII lowercase letters map to upper case, all other bytes are
unchanged (multi-byte characters have all bytes at least 128). -/
def to_ascii_uppercase (l : List Nat) : List Nat :=
  l.map (fun b => if 97 ≤ b ∧ b ≤ 122 then b - 32 else b)

/-- Failure of `Connection::read_command` in `src/connection.rs` after a
value was successfully read. -/
inductive CmdErr where
  | notArray
  | invalidShape
  | fromAsString (e : AsStringErr)

/-- Outcome of `Connection::read_command` on an already-parsed value.
`panicked` models `Vec::drain(0..1)` panicking on an empty vector (only
reachable when `len >= 1` but `elements` is empty, which the parser never
produces). -/
inductive CmdOutcome where
  | ok (commandName : List Nat) (arguments : List Value)
  | fail (e : CmdErr)
  | panicked

/-- Model of the pure part of `Connection::read_command` in
`src/connection.rs`, applied to the value returned by `read_value`:
requires an `Array` with `len >= 1`, removes the first element, converts it
with `as_string`, upper-cases it, and returns the remaining elements as
arguments in order. -/
def read_command_of_value : Value → CmdOutcome
  | .array len elements =>
    if len < 1 then .fail .invalidShape
    else
      match elements with
      | [] => .panicked
      | first :: rest =>
        match as_string first with
        | .ok s => .ok (to_ascii_uppercase s) rest
        | .error e => .fail (.fromAsString e)
  | _ => .fail .notArray

mutual

/-- Data-model invariant a successfully parsed value satisfies: bulk strings
hold exactly `size` bytes of data, arrays hold exactly `max(len, 0)`
elements, recursively. -/
def valueOk : Value → Bool
  | .string _ => true
  | .number _ => true
  | .bulk size data => decide ((data.length : Int) = size)
  | .error _ => true
  | .array len elements =>
    decide (elements.length = len.toNat) && valuesOk elements

/-- All values of a list satisfy `valueOk`. -/
def valuesOk : List Value → Bool
  | [] => true
  | v :: vs => valueOk v && valuesOk vs

end

mutual

/-- Well-formedness of a value for the round-trip property: string payloads
are CRLF-free valid UTF-8 (a Rust `String` invariant), numbers and lengths
fit in `i64` (a Rust type invariant), declared sizes match the data, and the
`Error` variant does not occur (it has no parseable encoding). -/
def valueWF : Value → Bool
  | .string s => (find_crlf s).isNone && utf8Valid s
  | .number n => decide (-(2 ^ 63) ≤ n) && decide (n ≤ 2 ^ 63 - 1)
  | .bulk size data => decide (size = (data.length : Int)) && decide (data.length < 2 ^ 63)
  | .error _ => false
  | .array len elements =>
    decide (len = (elements.length : Int)) && decide (elements.length < 2 ^ 63) &&
      valuesWF elements

/-- All values of a list satisfy `valueWF`. -/
def valuesWF : List Value → Bool
  | [] => true
  | v :: vs => valueWF v && valuesWF vs

end

mutual

/-- Nesting depth of a value: the parser consumes one unit of fuel per
nesting level, so `valueDepth v` of fuel suffices to parse `v`. -/
def valueDepth : Value → Nat
  | .array _ elements => 1 + listDepth elements
  | _ => 1

/-- Maximal depth of the values of a list. -/
def listDepth : List Value → Nat
  | [] => 0
  | v :: vs => max (valueDepth v) (listDepth vs)

end

/-- Decimal ASCII digits of a natural number, most significant first. -/
def natDigits (n : Nat) : List Nat :=
  if n < 10 then [48 + n] else natDigits (n / 10) ++ [48 + n % 10]
termination_by n
decreasing_by exact Nat.div_lt_self (by omega) (by omega)

/-- Decimal ASCII digits of an integer, with a leading `-` when negative. -/
def intToDigits (n : Int) : List Nat :=
  if n < 0 then 45 :: natDigits (-n).toNat else natDigits n.toNat

mutual

/-- Modelled from the spec: the repository has no encoder, so this is the
reference RESP encoder of the specification's wire format section:
SimpleString is `+<payload>\r\n`; Integer is `:<decimal>\r\n`; BulkString is
`$<decimal-length>\r\n<length bytes>\r\n`; Array is `*<decimal-count>\r\n`
followed by that many encoded units; an `Error` is "identical in wire shape
to SimpleString". -/
def encodeValue : Value → List Nat
  | .string s => 43 :: (s ++ [13, 10])
  | .number n => 58 :: (intToDigits n ++ [13, 10])
  | .bulk _ data => 36 :: (natDigits data.length ++ [13, 10] ++ data ++ [13, 10])
  | .error msg => 43 :: (msg ++ [13, 10])
  | .array _ elements => 42 :: (natDigits elements.length ++ [13, 10] ++ encodeList elements)

/-- Modelled from the spec: concatenation of the encodings of a list of
values (the Array body). -/
def encodeList : List Value → List Nat
  | [] => []
  | v :: vs => encodeValue v ++ encodeList vs

end

/-- Prefix already-parsed elements onto the outcome of the remaining element
loop (used to state how `parseElemsF` processes a concatenation). -/
def prependElems (vs : List Value) : ElemsOutcome → ElemsOutcome
  | .ok els leftover => .ok (vs ++ els) leftover
  | r => r

theorem take_len_append (xs ys : List Nat) : (xs ++ ys).take xs.length = xs := by
  induction xs with
  | nil => rfl
  | cons a t ih => simp [List.take, ih]

theorem drop_len_append (xs ys : List Nat) : (xs ++ ys).drop xs.length = ys := by
  induction xs with
  | nil => rfl
  | cons a t ih => exact ih

theorem find_crlf_none_of_no13 (xs : List Nat) (h : ∀ b ∈ xs, b ≠ 13) :
    find_crlf xs = none := by
  induction xs with
  | nil => rfl
  | cons a t ih =>
    cases t with
    | nil => rfl
    | cons b t' =>
      have ha : a ≠ 13 := h a (by simp)
      have ht : ∀ x ∈ b :: t', x ≠ 13 := fun x hx => h x (by simp [hx])
      simp only [find_crlf]
      rw [if_neg (by tauto), ih ht]
      rfl

theorem find_crlf_append (xs rest : List Nat) (h : find_crlf xs = none) :
    find_crlf (xs ++ 13 :: 10 :: rest) = some xs.length := by
  induction xs with
  | nil => simp [find_crlf]
  | cons a t ih =>
    cases t with
    | nil =>
      simp only [List.cons_append, List.nil_append, find_crlf]
      rw [if_neg (by omega)]
      simp [find_crlf]
    | cons b t' =>
      simp only [find_crlf] at h
      have hcond : ¬(a = 13 ∧ b = 10) := by
        intro hc
        rw [if_pos hc] at h
        exact Option.noConfusion h
      rw [if_neg hcond] at h
      have ht : find_crlf (b :: t') = none := by
        cases hfc : find_crlf (b :: t') with
        | none => rfl
        | some p => rw [hfc] at h; exact Option.noConfusion h
      have hrec := ih ht
      simp only [List.cons_append] at hrec
      simp only [List.cons_append, find_crlf]
      rw [if_neg hcond]
      show (find_crlf (b :: (t' ++ 13 :: 10 :: rest))).map (fun p => p + 1)
        = some (a :: b :: t').length
      rw [hrec]
      simp

theorem utf8Valid_of_ascii (l : List Nat) (h : ∀ b ∈ l, b < 128) :
    utf8Valid l = true := by
  induction l with
  | nil => rfl
  | cons a t ih =>
    have ha : a < 128 := h a (by simp)
    simp only [utf8Valid]
    rw [if_pos ha]
    exact ih (fun b hb => h b (by simp [hb]))

theorem fromDigits_bytes (neg : Bool) (digits : List Nat) (v : Int)
    (h : fromDigits neg digits = some v) : ∀ b ∈ digits, 48 ≤ b ∧ b ≤ 57 := by
  unfold fromDigits at h
  split at h
  · exact Option.noConfusion h
  · split at h
    · next hall =>
      intro b hb
      have := List.all_eq_true.mp hall b hb
      simpa [isDigitB] using this
    · exact Option.noConfusion h

theorem fromStrRadix10_bytes (s : List Nat) (v : Int)
    (h : fromStrRadix10 s = some v) : ∀ b ∈ s, b < 128 ∧ b ≠ 13 := by
  cases s with
  | nil => intro b hb; simp at hb
  | cons b0 rest =>
    simp only [fromStrRadix10] at h
    intro b hb
    by_cases h43 : b0 = 43
    · rw [if_pos h43] at h
      have hd := fromDigits_bytes _ _ _ h
      rcases List.mem_cons.mp hb with hb0 | hbr
      · omega
      · have := hd b hbr; omega
    · rw [if_neg h43] at h
      by_cases h45 : b0 = 45
      · rw [if_pos h45] at h
        have hd := fromDigits_bytes _ _ _ h
        rcases List.mem_cons.mp hb with hb0 | hbr
        · omega
        · have := hd b hbr; omega
      · rw [if_neg h45] at h
        have hd := fromDigits_bytes _ _ _ h
        have := hd b hb
        omega

theorem i64ofNat_of_lt (n : Nat) (h : n < 2 ^ 63) : i64ofNat n = (n : Int) := by
  unfold i64ofNat
  rw [Int.emod_eq_of_lt (by positivity) (by push_cast; omega)]
  omega

theorem i64ofNat_le (n : Nat) : i64ofNat n ≤ 2 ^ 63 - 1 := by
  unfold i64ofNat
  have h1 : ((n : Int) + 2 ^ 63) % 2 ^ 64 < 2 ^ 64 :=
    Int.emod_lt_of_pos _ (by positivity)
  omega

theorem parse_string_line (s rest : List Nat) (hn : find_crlf s = none)
    (hu : utf8Valid s = true) :
    parse_string (s ++ 13 :: 10 :: rest) = (.ok (.string s) rest, [13, 10]) := by
  unfold parse_string
  rw [find_crlf_append s rest hn]
  simp only [take_len_append, hu, if_pos]
  rw [show (s ++ 13 :: 10 :: rest).drop s.length = 13 :: 10 :: rest from
    drop_len_append s (13 :: 10 :: rest)]
  rfl

theorem parse_number_line (sizeB body : List Nat) (v : Int)
    (h : fromStrRadix10 sizeB = some v) :
    parse_number (sizeB ++ 13 :: 10 :: body) = (.ok (.number v) body, [13, 10]) := by
  have hb := fromStrRadix10_bytes _ _ h
  have hn : find_crlf sizeB = none :=
    find_crlf_none_of_no13 _ (fun b hb' => (hb b hb').2)
  have hu : utf8Valid sizeB = true :=
    utf8Valid_of_ascii _ (fun b hb' => (hb b hb').1)
  unfold parse_number
  rw [parse_string_line _ _ hn hu]
  simp [h]

theorem parse_bulk_ok (sizeB body : List Nat) (size : Int) (pos : Nat)
    (h1 : fromStrRadix10 sizeB = some size) (h2 : 0 ≤ size)
    (h3 : size ≤ (body.length : Int) - 2) (h4 : body.length < 2 ^ 63)
    (h5 : find_crlf (body.drop size.toNat) = some pos) :
    parse_bulk_string (sizeB ++ 13 :: 10 :: body)
      = (.ok (.bulk size (body.take size.toNat))
          ((body.drop size.toNat).drop (pos + 2)), [13, 10]) := by
  unfold parse_bulk_string
  rw [if_neg (by simp)]
  rw [parse_number_line _ _ _ h1]
  simp only []
  rw [i64ofNat_of_lt _ h4]
  rw [if_neg (by omega), if_neg (by omega)]
  rw [h5]

theorem digitsVal_append (xs : List Nat) (d : Nat) :
    digitsVal (xs ++ [d]) = digitsVal xs * 10 + (d - 48) := by
  unfold digitsVal
  rw [List.foldl_append]
  rfl

theorem natDigits_spec (n : Nat) :
    digitsVal (natDigits n) = n ∧ (∀ b ∈ natDigits n, 48 ≤ b ∧ b ≤ 57) ∧
      natDigits n ≠ [] := by
  induction n using Nat.strong_induction_on with
  | _ n ih =>
    by_cases h : n < 10
    · rw [natDigits, if_pos h]
      refine ⟨by simp [digitsVal], ?_, by simp⟩
      intro b hb
      simp at hb
      omega
    · rw [natDigits, if_neg h]
      obtain ⟨hval, hmem, hne⟩ := ih (n / 10) (Nat.div_lt_self (by omega) (by omega))
      refine ⟨?_, ?_, by simp⟩
      · rw [digitsVal_append, hval]
        have := Nat.div_add_mod n 10
        have : n % 10 < 10 := Nat.mod_lt _ (by omega)
        omega
      · intro b hb
        rcases List.mem_append.mp hb with hb' | hb'
        · exact hmem b hb'
        · simp at hb'
          have : n % 10 < 10 := Nat.mod_lt _ (by omega)
          omega

theorem fromStrRadix10_natDigits (n : Nat) (h : n < 2 ^ 63) :
    fromStrRadix10 (natDigits n) = some (n : Int) := by
  obtain ⟨hval, hmem, hne⟩ := natDigits_spec n
  cases hd : natDigits n with
  | nil => exact absurd hd hne
  | cons b0 rest =>
    rw [hd] at hval hmem
    have hb0 := hmem b0 (by simp)
    simp only [fromStrRadix10]
    rw [if_neg (by omega), if_neg (by omega)]
    unfold fromDigits
    rw [if_neg (by simp)]
    rw [if_pos (List.all_eq_true.mpr (fun b hb => by
      have := hmem b hb
      simp [isDigitB]
      omega))]
    simp only [Bool.false_eq_true, if_false, hval]
    rw [if_pos (by push_cast; omega)]

theorem fromStrRadix10_intToDigits (n : Int) (h1 : -(2 ^ 63) ≤ n)
    (h2 : n ≤ 2 ^ 63 - 1) : fromStrRadix10 (intToDigits n) = some n := by
  unfold intToDigits
  by_cases hn : n < 0
  · rw [if_pos hn]
    obtain ⟨hval, hmem, hne⟩ := natDigits_spec (-n).toNat
    cases hd : natDigits (-n).toNat with
    | nil => exact absurd hd hne
    | cons b0 rest =>
      rw [hd] at hval hmem
      simp only [fromStrRadix10]
      rw [if_neg (by omega)]
      simp only [if_true]
      unfold fromDigits
      rw [if_neg (by simp)]
      rw [if_pos (List.all_eq_true.mpr (fun b hb => by
        have := hmem b hb
        simp [isDigitB]
        omega))]
      simp only [if_true, hval]
      have hcast : ((-n).toNat : Int) = -n := Int.toNat_of_nonneg (by omega)
      rw [if_pos (by omega)]
      congr 1
      omega
  · rw [if_neg hn]
    have hlt : n.toNat < 2 ^ 63 := by omega
    have := fromStrRadix10_natDigits n.toNat hlt
    rw [this]
    congr 1
    omega

theorem parse_resp_zero (buf : List Nat) : parse_resp 0 buf = (.nofuel, buf) := rfl

theorem parse_resp_succ_nil (fuel : Nat) :
    parse_resp (fuel + 1) [] = (.fail .emptyBuffer, []) := rfl

theorem parse_resp_succ_cons (fuel : Nat) (b : Nat) (rest : List Nat) :
    parse_resp (fuel + 1) (b :: rest)
      = if b = 43 then parse_string rest
        else if b = 42 then parse_array (parse_resp fuel) rest
        else if b = 58 then parse_number rest
        else if b = 36 then parse_bulk_string rest
        else (.fail (.unknownKind b), rest) := rfl

theorem valueDepth_pos (v : Value) : 1 ≤ valueDepth v := by
  cases v <;> simp [valueDepth]

theorem valuesWF_mem (vs : List Value) (h : valuesWF vs = true) :
    ∀ v ∈ vs, valueWF v = true := by
  induction vs with
  | nil => intro v hv; simp at hv
  | cons w ws ih =>
    simp only [valuesWF, Bool.and_eq_true] at h
    intro v hv
    rcases List.mem_cons.mp hv with rfl | hv'
    · exact h.1
    · exact ih h.2 v hv'

theorem listDepth_mem (vs : List Value) (v : Value) (h : v ∈ vs) :
    valueDepth v ≤ listDepth vs := by
  induction vs with
  | nil => simp at h
  | cons w ws ih =>
    rcases List.mem_cons.mp h with rfl | h'
    · simp [listDepth]
    · simp only [listDepth]
      exact le_trans (ih h') (le_max_right _ _)

theorem parseElemsF_concat (p : List Nat → ParseOutcome × List Nat)
    (vs : List Value) (k : Nat) (rest : List Nat)
    (H : ∀ v ∈ vs, ∀ extra, (encodeValue v ++ extra).length < 2 ^ 63 →
      p (encodeValue v ++ extra) = (.ok v extra, [13, 10]))
    (hlen : (encodeList vs ++ rest).length < 2 ^ 63) :
    parseElemsF p (vs.length + k) (encodeList vs ++ rest)
      = prependElems vs (parseElemsF p k rest) := by
  induction vs with
  | nil =>
    simp only [List.length_nil, Nat.zero_add, encodeList, List.nil_append]
    cases hres : parseElemsF p k rest <;> simp [prependElems]
  | cons v vs ih =>
    have hassoc : encodeList (v :: vs) ++ rest
        = encodeValue v ++ (encodeList vs ++ rest) := by
      simp [encodeList]
    have hlen2 : (encodeValue v ++ (encodeList vs ++ rest)).length < 2 ^ 63 := by
      rw [← hassoc]; exact hlen
    have hp := H v (by simp) (encodeList vs ++ rest) hlen2
    have hlen3 : (encodeList vs ++ rest).length < 2 ^ 63 := by
      simp only [List.length_append] at hlen2 ⊢
      omega
    have hih := ih (fun w hw extra hl => H w (by simp [hw]) extra hl) hlen3
    rw [hassoc]
    have hcount : (v :: vs).length + k = (vs.length + k) + 1 := by
      simp [List.length_cons]
      omega
    rw [hcount]
    simp only [parseElemsF, hp]
    rw [hih]
    cases hres : parseElemsF p k rest <;> simp [prependElems]

theorem decode_encode_aux :
    ∀ fuel (v : Value) (extra : List Nat), valueWF v = true → valueDepth v ≤ fuel →
      (encodeValue v ++ extra).length < 2 ^ 63 →
      parse_resp fuel (encodeValue v ++ extra) = (.ok v extra, [13, 10]) := by
  intro fuel
  induction fuel with
  | zero =>
    intro v extra hwf hd hlen
    have := valueDepth_pos v
    omega
  | succ f ih =>
    intro v extra hwf hd hlen
    cases v with
    | string s =>
      simp only [valueWF, Bool.and_eq_true, Option.isNone_iff_eq_none] at hwf
      have he : encodeValue (.string s) ++ extra = 43 :: (s ++ 13 :: 10 :: extra) := by
        simp [encodeValue]
      rw [he, parse_resp_succ_cons, if_pos rfl]
      exact parse_string_line s extra hwf.1 hwf.2
    | number n =>
      simp only [valueWF, Bool.and_eq_true, decide_eq_true_eq] at hwf
      have he : encodeValue (.number n) ++ extra
          = 58 :: (intToDigits n ++ 13 :: 10 :: extra) := by
        simp [encodeValue]
      rw [he, parse_resp_succ_cons]
      rw [if_neg (by omega), if_neg (by omega), if_pos rfl]
      exact parse_number_line _ _ _ (fromStrRadix10_intToDigits n hwf.1 hwf.2)
    | bulk size data =>
      simp only [valueWF, Bool.and_eq_true, decide_eq_true_eq] at hwf
      obtain ⟨hsz, hdl⟩ := hwf
      have he : encodeValue (.bulk size data) ++ extra
          = 36 :: (natDigits data.length ++ 13 :: 10 :: (data ++ 13 :: 10 :: extra)) := by
        simp [encodeValue]
      rw [he, parse_resp_succ_cons]
      rw [if_neg (by omega), if_neg (by omega), if_neg (by omega), if_pos rfl]
      have h1 : fromStrRadix10 (natDigits data.length) = some size := by
        rw [fromStrRadix10_natDigits data.length hdl, hsz]
      have hblen : (data ++ 13 :: 10 :: extra).length = data.length + 2 + extra.length := by
        simp
        omega
      have h4 : (data ++ 13 :: 10 :: extra).length < 2 ^ 63 := by
        rw [he] at hlen
        simp only [List.length_cons, List.length_append] at hlen ⊢
        omega
      have htn : size.toNat = data.length := by omega
      have h5 : find_crlf ((data ++ 13 :: 10 :: extra).drop size.toNat) = some 0 := by
        rw [htn, drop_len_append]
        simp [find_crlf]
      have := parse_bulk_ok (natDigits data.length) (data ++ 13 :: 10 :: extra)
        size 0 h1 (by omega) (by rw [hblen]; push_cast; omega) h4 h5
      rw [this, htn, take_len_append, drop_len_append]
      rfl
    | error msg => simp [valueWF] at hwf
    | array len els =>
      simp only [valueWF, Bool.and_eq_true, decide_eq_true_eq] at hwf
      obtain ⟨⟨hlenq, hcnt⟩, hwfs⟩ := hwf
      have hdep : listDepth els ≤ f := by
        simp only [valueDepth] at hd
        omega
      have he : encodeValue (.array len els) ++ extra
          = 42 :: (natDigits els.length ++ 13 :: 10 :: (encodeList els ++ extra)) := by
        simp [encodeValue]
      rw [he, parse_resp_succ_cons]
      rw [if_neg (by omega), if_pos rfl]
      unfold parse_array
      rw [if_neg (by simp)]
      rw [parse_number_line _ _ _ (fromStrRadix10_natDigits els.length hcnt)]
      simp only []
      have hlen3 : (encodeList els ++ extra).length < 2 ^ 63 := by
        rw [he] at hlen
        simp only [List.length_cons, List.length_append] at hlen ⊢
        omega
      have hH : ∀ w ∈ els, ∀ extra', (encodeValue w ++ extra').length < 2 ^ 63 →
          parse_resp f (encodeValue w ++ extra') = (.ok w extra', [13, 10]) :=
        fun w hw extra' hl =>
          ih w extra' (valuesWF_mem els hwfs w hw)
            (le_trans (listDepth_mem els w hw) hdep) hl
      have hconc := parseElemsF_concat (parse_resp f) els 0 extra hH hlen3
      rw [Nat.add_zero] at hconc
      have htn : ((els.length : Int)).toNat = els.length := by omega
      rw [htn, hconc]
      simp only [parseElemsF, prependElems, List.append_nil]
      rw [← hlenq]

theorem toNat_le_of_i64 (size : Int) (R : Nat) (h0 : 0 ≤ size)
    (h : size ≤ i64ofNat R - 2) : size.toNat ≤ R := by
  by_cases hR : R < 2 ^ 63
  · rw [i64ofNat_of_lt R hR] at h
    omega
  · have := i64ofNat_le R
    omega

theorem parse_string_shape (buf : List Nat) (v : Value) (rest b : List Nat)
    (h : parse_string buf = (.ok v rest, b)) : ∃ s, v = .string s := by
  unfold parse_string at h
  split at h
  · split at h
    · exact ⟨_, by injection h with h1 h2; injection h1 with h1; exact h1.symm⟩
    · simp at h
  · simp at h

theorem parse_number_shape (buf : List Nat) (v : Value) (rest b : List Nat)
    (h : parse_number buf = (.ok v rest, b)) : ∃ n, v = .number n := by
  unfold parse_number at h
  split at h
  · next s rest' b' heq =>
    split at h
    · exact ⟨_, by injection h with h1 h2; injection h1 with h1; exact h1.symm⟩
    · simp at h
  · simp at h
  · next r b' hne1 hne2 heq =>
    injection h with h1 h2
    exact (hne2 v rest h1).elim

theorem parse_bulk_inv (buf : List Nat) (v : Value) (rest b : List Nat)
    (h : parse_bulk_string buf = (.ok v rest, b)) : valueOk v = true := by
  unfold parse_bulk_string at h
  split at h
  · simp at h
  · split at h
    · next size rest' b' heq =>
      by_cases hover : i64ofNat rest'.length - 2 < size
      · rw [if_pos hover] at h
        simp at h
      · rw [if_neg hover] at h
        by_cases hneg : size < 0
        · rw [if_pos hneg] at h
          simp at h
        · rw [if_neg hneg] at h
          split at h
          · next pos hfc =>
            injection h with h1 h2
            injection h1 with h1 hrest
            subst h1
            have hle : size.toNat ≤ rest'.length :=
              toNat_le_of_i64 size rest'.length (by omega) (by omega)
            simp only [valueOk, decide_eq_true_eq]
            rw [List.length_take]
            omega
          · simp at h
    · simp at h
    · next r b' hne1 hne2 heq =>
      injection h with h1 h2
      exact (hne2 v rest h1).elim

theorem parseElemsF_inv (p : List Nat → ParseOutcome × List Nat)
    (Hp : ∀ buf v rest b, p buf = (.ok v rest, b) → valueOk v = true) :
    ∀ count buf els leftover, parseElemsF p count buf = .ok els leftover →
      valuesOk els = true ∧ els.length = count := by
  intro count
  induction count with
  | zero =>
    intro buf els leftover h
    simp only [parseElemsF] at h
    injection h with h1 h2
    subst h1
    exact ⟨rfl, rfl⟩
  | succ c ih =>
    intro buf els leftover h
    simp only [parseElemsF] at h
    split at h
    · next v rest' b' heq =>
      split at h
      · next els' leftover' heq2 =>
        injection h with h1 h2
        subst h1
        obtain ⟨hok, hlen⟩ := ih rest' els' leftover' heq2
        refine ⟨?_, by simp [hlen]⟩
        simp only [valuesOk, Bool.and_eq_true]
        exact ⟨Hp buf v rest' b' heq, hok⟩
      all_goals simp_all
    all_goals simp_all

theorem parse_resp_inv :
    ∀ fuel buf v rest b, parse_resp fuel buf = (.ok v rest, b) → valueOk v = true := by
  intro fuel
  induction fuel with
  | zero =>
    intro buf v rest b h
    rw [parse_resp_zero] at h
    simp at h
  | succ f ih =>
    intro buf v rest b h
    cases buf with
    | nil => rw [parse_resp_succ_nil] at h; simp at h
    | cons b0 r =>
      rw [parse_resp_succ_cons] at h
      split_ifs at h
      · obtain ⟨s, rfl⟩ := parse_string_shape r v rest b h
        rfl
      · unfold parse_array at h
        split at h
        · simp at h
        · split at h
          · next len rest' b' heq =>
            split at h
            · next els leftover heq2 =>
              injection h with h1 h2
              injection h1 with h1 hrest
              subst h1
              obtain ⟨hok, hlen⟩ := parseElemsF_inv (parse_resp f) ih _ _ _ _ heq2
              simp only [valueOk, Bool.and_eq_true, decide_eq_true_eq]
              exact ⟨hlen, hok⟩
            all_goals simp_all
          · simp at h
          · next r' b' hne1 hne2 heq =>
            rcases r' with _ | _ | _ | _ <;> simp_all
      · obtain ⟨n, rfl⟩ := parse_number_shape r v rest b h
        rfl
      · exact parse_bulk_inv r v rest b h
      · simp at h

theorem parse_string_suffix (buf : List Nat) (v : Value) (rest b : List Nat)
    (h : parse_string buf = (.ok v rest, b)) : rest <:+ buf := by
  unfold parse_string at h
  split at h
  · rename_i pos hfc
    split at h
    · injection h with h1 h2
      injection h1 with h1 hrest
      subst hrest
      exact ((buf.drop pos).drop_suffix 2).trans (buf.drop_suffix pos)
    · simp at h
  · simp at h

theorem parse_number_suffix (buf : List Nat) (v : Value) (rest b : List Nat)
    (h : parse_number buf = (.ok v rest, b)) : rest <:+ buf := by
  unfold parse_number at h
  split at h
  · next s rest' b' heq =>
    split at h
    · injection h with h1 h2
      injection h1 with h1 hrest
      subst hrest
      exact parse_string_suffix buf _ _ _ heq
    · simp at h
  · simp at h
  · next r b' hne1 hne2 heq =>
    injection h with h1 h2
    exact (hne2 v rest h1).elim

theorem parse_bulk_suffix (buf : List Nat) (v : Value) (rest b : List Nat)
    (h : parse_bulk_string buf = (.ok v rest, b)) : rest <:+ buf := by
  unfold parse_bulk_string at h
  split at h
  · simp at h
  · split at h
    · next size rest' b' heq =>
      by_cases hover : i64ofNat rest'.length - 2 < size
      · rw [if_pos hover] at h
        simp at h
      · rw [if_neg hover] at h
        by_cases hneg : size < 0
        · rw [if_pos hneg] at h
          simp at h
        · rw [if_neg hneg] at h
          split at h
          · next pos hfc =>
            injection h with h1 h2
            injection h1 with h1 hrest
            subst hrest
            exact (((rest'.drop size.toNat).drop_suffix (pos + 2)).trans
              (rest'.drop_suffix size.toNat)).trans
              (parse_number_suffix buf _ _ _ heq)
          · simp at h
    · simp at h
    · next r b' hne1 hne2 heq =>
      injection h with h1 h2
      exact (hne2 v rest h1).elim

theorem parseElemsF_suffix (p : List Nat → ParseOutcome × List Nat)
    (Hp : ∀ buf v rest b, p buf = (.ok v rest, b) → rest <:+ buf) :
    ∀ count buf els leftover, parseElemsF p count buf = .ok els leftover →
      leftover <:+ buf := by
  intro count
  induction count with
  | zero =>
    intro buf els leftover h
    simp only [parseElemsF] at h
    injection h with h1 h2
    subst h2
    exact List.suffix_refl buf
  | succ c ih =>
    intro buf els leftover h
    simp only [parseElemsF] at h
    split at h
    · next v rest' b' heq =>
      split at h
      · next els' leftover' heq2 =>
        injection h with h1 h2
        subst h2
        exact (ih _ _ _ heq2).trans (Hp buf v rest' b' heq)
      all_goals simp_all
    all_goals simp_all

theorem parse_resp_suffix :
    ∀ fuel buf v rest b, parse_resp fuel buf = (.ok v rest, b) → rest <:+ buf := by
  intro fuel
  induction fuel with
  | zero =>
    intro buf v rest b h
    rw [parse_resp_zero] at h
    simp at h
  | succ f ih =>
    intro buf v rest b h
    cases buf with
    | nil => rw [parse_resp_succ_nil] at h; simp at h
    | cons b0 r =>
      rw [parse_resp_succ_cons] at h
      have hsub : r <:+ b0 :: r := ⟨[b0], rfl⟩
      split_ifs at h
      · exact (parse_string_suffix r v rest b h).trans hsub
      · unfold parse_array at h
        split at h
        · simp at h
        · split at h
          · next len rest' b' heq =>
            split at h
            · next els leftover heq2 =>
              injection h with h1 h2
              injection h1 with h1 hrest
              subst hrest
              exact ((parseElemsF_suffix (parse_resp f) ih _ _ _ _ heq2).trans
                (parse_number_suffix r _ _ _ heq)).trans hsub
            all_goals simp_all
          · simp at h
          · next r' b' hne1 hne2 heq =>
            injection h with h1 h2
            exact (hne2 v rest h1).elim
      · exact (parse_number_suffix r v rest b h).trans hsub
      · exact (parse_bulk_suffix r v rest b h).trans hsub
      · simp at h

/-- Claim C1: for every well-formed BulkString encoding whose capacity check
passes (`declaredSize <= remaining length - 2`) and whose buffer contains a
CRLF after the data, `parse_resp` returns a bulk value whose data is exactly
the first `declaredSize` bytes after the size line (so
`data.length = declaredSize`), and filler bytes between the data and the
first following CRLF are discarded without affecting the result. -/
theorem claim1_bulk_data_exact (fuel : Nat) (sizeB body : List Nat) (size : Int)
    (pos : Nat) (h1 : fromStrRadix10 sizeB = some size) (h2 : 0 ≤ size)
    (h3 : size ≤ (body.length : Int) - 2) (h4 : body.length < 2 ^ 63)
    (h5 : find_crlf (body.drop size.toNat) = some pos) :
    parse_resp (fuel + 1) (36 :: (sizeB ++ 13 :: 10 :: body))
      = (.ok (.bulk size (body.take size.toNat))
          ((body.drop size.toNat).drop (pos + 2)), [13, 10])
    ∧ ((body.take size.toNat).length : Int) = size := by
  constructor
  · rw [parse_resp_succ_cons]
    rw [if_neg (by omega), if_neg (by omega), if_neg (by omega), if_pos rfl]
    exact parse_bulk_ok sizeB body size pos h1 h2 h3 h4 h5
  · simp only [List.length_take]
    omega

/-- Witness for C1 at the spec's example: parsing the bytes of
`"$5\r\nhello world\r\n"` yields `data = "hello"` with empty leftover. -/
theorem claim1_witness :
    parse_resp 1 [36, 53, 13, 10, 104, 101, 108, 108, 111, 32, 119, 111, 114, 108, 100, 13, 10]
      = (.ok (.bulk 5 [104, 101, 108, 108, 111]) [], [13, 10])
    ∧ (([104, 101, 108, 108, 111] : List Nat).length : Int) = 5 :=
  claim1_bulk_data_exact 0 [53]
    [104, 101, 108, 108, 111, 32, 119, 111, 114, 108, 100, 13, 10] 5 6
    (by decide) (by decide) (by decide) (by norm_num) (by decide)

/-- Claim C2 counterexample: parsing the bytes of `"*-1\r\n"` succeeds and
returns `Array { len := -1, elements := [] }`, whose element count `0` is
not equal to the declared length `-1`, so the claimed invariant
`elements.length == declaredLen` fails on this successful parse. -/
theorem claim2_counterexample :
    parse_resp 2 [42, 45, 49, 13, 10] = (.ok (.array (-1) []) [], [13, 10])
    ∧ ¬((([] : List Value).length : Int) = -1) :=
  ⟨rfl, by decide⟩

/-- Claim C2 (amended): for every input buffer on which `parse_resp`
succeeds, the returned value satisfies: every bulk string has
`data.length = declaredSize`, and every array (at any nesting depth) has
`elements.length = max(declaredLen, 0)` — equal to `declaredLen` whenever
the declared length is nonnegative, while a negative declared length
produces an empty element list. -/
theorem claim2_invariants (fuel : Nat) (buf : List Nat) (v : Value)
    (rest b : List Nat) (h : parse_resp fuel buf = (.ok v rest, b)) :
    valueOk v = true :=
  parse_resp_inv fuel buf v rest b h

/-- Witness for C2 at the input `"*1\r\n$1\r\n\xff\r\n"`. -/
theorem claim2_witness : valueOk (.array 1 [.bulk 1 [255]]) = true :=
  claim2_invariants 2 [42, 49, 13, 10, 36, 49, 13, 10, 255, 13, 10]
    (.array 1 [.bulk 1 [255]]) [] [13, 10] rfl

/-- Claim C3 (code bug): the spec says non-numeric Integer text fails with an
`InvalidInteger` error result, but `parse_number` calls
`i64::from_str_radix(&value, 10).unwrap()`, which panics on non-numeric
text instead of returning an error.  On the bytes of `":abc\r\n"` the model
reaches the panic outcome. -/
theorem claim3_invalid_integer_panics :
    parse_resp 1 [58, 97, 98, 99, 13, 10] = (.panicked, [13, 10]) := rfl

/-- Claim C4: for every BulkString input whose declared size, after the size
line is consumed, exceeds the remaining length minus 2, `parse_resp` fails
with `bulkOverrun` carrying that declared size and the remaining length. -/
theorem claim4_bulk_overrun (fuel : Nat) (sizeB body : List Nat) (size : Int)
    (h1 : fromStrRadix10 sizeB = some size) (h4 : body.length < 2 ^ 63)
    (h3 : (body.length : Int) - 2 < size) :
    parse_resp (fuel + 1) (36 :: (sizeB ++ 13 :: 10 :: body))
      = (.fail (.bulkOverrun size (body.length : Int)), [13, 10]) := by
  rw [parse_resp_succ_cons]
  rw [if_neg (by omega), if_neg (by omega), if_neg (by omega), if_pos rfl]
  unfold parse_bulk_string
  rw [if_neg (by simp)]
  rw [parse_number_line _ _ _ h1]
  simp only []
  rw [i64ofNat_of_lt _ h4]
  rw [if_pos (by omega)]

/-- Witness for C4 at the spec's two examples: `"$5\r\nh"` fails with
`BulkOverrun{declared: 5, available: 1}` and `"$5\r\nh\r\n"` fails with
`BulkOverrun{declared: 5, available: 3}`. -/
theorem claim4_witness :
    parse_resp 1 [36, 53, 13, 10, 104] = (.fail (.bulkOverrun 5 1), [13, 10])
    ∧ parse_resp 1 [36, 53, 13, 10, 104, 13, 10]
        = (.fail (.bulkOverrun 5 3), [13, 10]) :=
  ⟨claim4_bulk_overrun 0 [53] [104] 5 (by decide) (by norm_num) (by decide),
   claim4_bulk_overrun 0 [53] [104, 13, 10] 5 (by decide) (by norm_num) (by decide)⟩

/-- Claim C5: an array whose declared length exceeds the number of complete
element encodings in the buffer fails with exactly the error the first
missing child parse produces (the child entered on the bytes left after the
complete elements), propagated unchanged with no partial array returned and
no array-specific length-mismatch error; with an exhausted cursor at the
child's entry this error is `emptyBuffer`. -/
theorem claim5_array_propagates_child_error (fuel : Nat) (nB : List Nat)
    (n : Int) (vs : List Value) (rest : List Nat) (e : ParseError) (b' : List Nat)
    (hn : fromStrRadix10 nB = some n)
    (hwf : valuesWF vs = true) (hdep : listDepth vs ≤ fuel)
    (hlen : (encodeList vs ++ rest).length < 2 ^ 63)
    (hcount : (vs.length : Int) < n)
    (hchild : parse_resp fuel rest = (.fail e, b')) :
    parse_resp (fuel + 1) (42 :: (nB ++ 13 :: 10 :: (encodeList vs ++ rest)))
      = (.fail e, [13, 10]) := by
  rw [parse_resp_succ_cons]
  rw [if_neg (by omega), if_pos rfl]
  unfold parse_array
  rw [if_neg (by simp)]
  rw [parse_number_line _ _ _ hn]
  simp only []
  have hH : ∀ w ∈ vs, ∀ extra', (encodeValue w ++ extra').length < 2 ^ 63 →
      parse_resp fuel (encodeValue w ++ extra') = (.ok w extra', [13, 10]) :=
    fun w hw extra' hl => decode_encode_aux fuel w extra' (valuesWF_mem vs hwf w hw)
      (le_trans (listDepth_mem vs w hw) hdep) hl
  have hk : n.toNat = vs.length + (n.toNat - vs.length) := by omega
  rw [hk, parseElemsF_concat (parse_resp fuel) vs (n.toNat - vs.length) rest hH hlen]
  have hpos : n.toNat - vs.length = (n.toNat - vs.length - 1) + 1 := by omega
  rw [hpos]
  simp only [parseElemsF, hchild, prependElems]

/-- Witness for C5 at the spec's example `"*2\r\n+hello\r\n"`: the declared
length 2 exceeds the single complete element, the second child parse enters
an exhausted cursor, and the whole parse fails with `emptyBuffer`. -/
theorem claim5_witness :
    parse_resp 2 [42, 50, 13, 10, 43, 104, 101, 108, 108, 111, 13, 10]
      = (.fail .emptyBuffer, [13, 10]) :=
  claim5_array_propagates_child_error 1 [50] 2 [.string [104, 101, 108, 108, 111]]
    [] .emptyBuffer [] (by decide) (by decide) (by decide) (by decide) (by decide) rfl

/-- Claim C6: parsing the leftover cursor returned by a successful
`parse_resp` call never re-consumes bytes of the already-parsed value — the
leftover is always a suffix of the input; in particular parsing
`"+Test\r\n+Foo\r\n"` yields `SimpleString("Test")` with leftover
`"+Foo\r\n"`, and parsing that leftover yields `SimpleString("Foo")` with
empty leftover. -/
theorem claim6_leftover_chain :
    (∀ fuel buf v rest b, parse_resp fuel buf = (.ok v rest, b) → rest <:+ buf)
    ∧ parse_resp 1 [43, 84, 101, 115, 116, 13, 10, 43, 70, 111, 111, 13, 10]
        = (.ok (.string [84, 101, 115, 116]) [43, 70, 111, 111, 13, 10], [13, 10])
    ∧ parse_resp 1 [43, 70, 111, 111, 13, 10]
        = (.ok (.string [70, 111, 111]) [], [13, 10]) :=
  ⟨parse_resp_suffix, rfl, rfl⟩

/-- Witness for C6: the leftover `"+Foo\r\n"` of the first parse is a suffix
of the original buffer, obtained by instantiating the general conjunct at
the concrete parse. -/
theorem claim6_witness :
    ([43, 70, 111, 111, 13, 10] : List Nat)
      <:+ [43, 84, 101, 115, 116, 13, 10, 43, 70, 111, 111, 13, 10] :=
  claim6_leftover_chain.1 1 _ _ _ _ claim6_leftover_chain.2.1

/-- Claim C7 counterexample: `"*1\r\n$1\r\n\xff\r\n"` parses to an array
whose first element is a BulkString, yet `read_command_of_value` fails (the
bulk payload is not valid UTF-8) instead of returning the upper-cased text
the claim promises for every SimpleString-or-BulkString first element. -/
theorem claim7_counterexample :
    parse_resp 2 [42, 49, 13, 10, 36, 49, 13, 10, 255, 13, 10]
      = (.ok (.array 1 [.bulk 1 [255]]) [], [13, 10])
    ∧ read_command_of_value (.array 1 [.bulk 1 [255]])
      = .fail (.fromAsString .invalidUtf8) :=
  ⟨rfl, rfl⟩

/-- Claim C7 (amended): `read_command`, applied to a value produced by
`read_value`, fails unless that value is an Array with declared length at
least 1; on an Array whose first element is a SimpleString, or a BulkString
whose bytes are valid UTF-8, it returns the first element's text upper-cased
together with the remaining elements in their original order; it fails when
the first element is a BulkString with invalid UTF-8 bytes or any other
variant (Integer, Error, or nested Array). -/
theorem claim7_read_command (fuel : Nat) (buf : List Nat) (v : Value)
    (rest0 b0 : List Nat) (hp : parse_resp fuel buf = (.ok v rest0, b0)) :
    ((∀ len els, v ≠ .array len els) → read_command_of_value v = .fail .notArray)
    ∧ (∀ len els, v = .array len els → len < 1 →
        read_command_of_value v = .fail .invalidShape)
    ∧ (∀ len s els', v = .array len (.string s :: els') → 1 ≤ len →
        read_command_of_value v = .ok (to_ascii_uppercase s) els')
    ∧ (∀ len sz d els', v = .array len (.bulk sz d :: els') → 1 ≤ len →
        utf8Valid d = true →
        read_command_of_value v = .ok (to_ascii_uppercase d) els')
    ∧ (∀ len sz d els', v = .array len (.bulk sz d :: els') → 1 ≤ len →
        utf8Valid d = false →
        read_command_of_value v = .fail (.fromAsString .invalidUtf8))
    ∧ (∀ len x els', v = .array len (x :: els') → 1 ≤ len →
        (∀ s, x ≠ .string s) → (∀ sz d, x ≠ .bulk sz d) →
        read_command_of_value v = .fail (.fromAsString .notConvertible)) := by
  refine ⟨?_, ?_, ?_, ?_, ?_, ?_⟩
  · intro hne
    cases v with
    | string s => rfl
    | number n => rfl
    | bulk sz d => rfl
    | error m => rfl
    | array len els => exact absurd rfl (hne len els)
  · intro len els hv hlt
    subst hv
    simp only [read_command_of_value]
    rw [if_pos hlt]
  · intro len s els' hv hge
    subst hv
    simp only [read_command_of_value]
    rw [if_neg (by omega)]
    rfl
  · intro len sz d els' hv hge hu
    subst hv
    simp only [read_command_of_value]
    rw [if_neg (by omega)]
    simp [as_string, hu]
  · intro len sz d els' hv hge hu
    subst hv
    simp only [read_command_of_value]
    rw [if_neg (by omega)]
    simp [as_string, hu]
  · intro len x els' hv hge hns hnb
    subst hv
    simp only [read_command_of_value]
    rw [if_neg (by omega)]
    cases x with
    | string s => exact absurd rfl (hns s)
    | bulk sz d => exact absurd rfl (hnb sz d)
    | number n => rfl
    | error m => rfl
    | array l e => rfl

/-- Witness for C7: reading the command from the parse of `"*1\r\n+ping\r\n"`
yields the upper-cased name `"PING"` and no arguments. -/
theorem claim7_witness :
    read_command_of_value (.array 1 [.string [112, 105, 110, 103]])
      = .ok [80, 73, 78, 71] [] :=
  (claim7_read_command 2 [42, 49, 13, 10, 43, 112, 105, 110, 103, 13, 10]
      (.array 1 [.string [112, 105, 110, 103]]) [] [13, 10] rfl).2.2.1
    1 [112, 105, 110, 103] [] rfl (by decide)

/-- Claim C8: for every non-empty input whose first byte is not one of
`+`, `*`, `:`, `$`, `parse_resp` consumes that one tag byte and fails with
`unknownKind` carrying the offending byte, leaving the bytes after the tag
in the caller's buffer. -/
theorem claim8_unknown_kind (fuel : Nat) (b : Nat) (rest : List Nat)
    (h1 : b ≠ 43) (h2 : b ≠ 42) (h3 : b ≠ 58) (h4 : b ≠ 36) :
    parse_resp (fuel + 1) (b :: rest) = (.fail (.unknownKind b), rest) := by
  rw [parse_resp_succ_cons]
  rw [if_neg h1, if_neg h2, if_neg h3, if_neg h4]

/-- Witness for C8 at the spec's example: parsing `")Foo\r\n"` fails with
`UnknownType(')')` and leftover `"Foo\r\n"`. -/
theorem claim8_witness :
    parse_resp 1 [41, 70, 111, 111, 13, 10]
      = (.fail (.unknownKind 41), [70, 111, 111, 13, 10]) :=
  claim8_unknown_kind 0 41 [70, 111, 111, 13, 10]
    (by decide) (by decide) (by decide) (by decide)

/-- Claim C9 counterexample: the `Error` variant does not round-trip.  The
spec's wire format gives `Error` the same shape as a SimpleString, so the
encoding of `Error("x")` parses back as `SimpleString("x")`, which is not
structurally equal to the original value. -/
theorem claim9_counterexample :
    parse_resp 1 (encodeValue (.error [120])) = (.ok (.string [120]) [], [13, 10])
    ∧ Value.string [120] ≠ Value.error [120] :=
  ⟨rfl, fun h => Value.noConfusion h⟩

/-- Claim C9 (amended): for every `Error`-free value whose strings contain
no embedded CRLF and whose declared lengths are consistent with their
contents, encoding the value with the spec's reference encoder and parsing
the result yields a structurally equal value with an empty leftover. -/
theorem claim9_roundtrip (fuel : Nat) (v : Value) (hwf : valueWF v = true)
    (hd : valueDepth v ≤ fuel) (hlen : (encodeValue v).length < 2 ^ 63) :
    parse_resp fuel (encodeValue v) = (.ok v [], [13, 10]) := by
  have := decode_encode_aux fuel v [] hwf hd (by simpa using hlen)
  simpa using this

/-- Witness for C9 at a nested value: the array `["hi", Bulk("hi")]` encodes
to `"*2\r\n+hi\r\n$2\r\nhi\r\n"` and parses back to itself. -/
theorem claim9_witness :
    parse_resp 2 (encodeValue (.array 2 [.string [104, 105], .bulk 2 [104, 105]]))
      = (.ok (.array 2 [.string [104, 105], .bulk 2 [104, 105]]) [], [13, 10]) :=
  claim9_roundtrip 2 (.array 2 [.string [104, 105], .bulk 2 [104, 105]])
    (by decide) (by decide) (by simp [encodeValue, encodeList, natDigits])

/-- Claim C10: when `read_command` receives an Array of length at least 1
whose first element is a BulkString whose data bytes are not valid UTF-8,
it fails with an error and produces no command name. -/
theorem claim10_utf8_required (len sz : Int) (d : List Nat) (els' : List Value)
    (hu : utf8Valid d = false) (hlen : 1 ≤ len) :
    read_command_of_value (.array len (.bulk sz d :: els'))
      = .fail (.fromAsString .invalidUtf8) := by
  simp only [read_command_of_value]
  rw [if_neg (by omega)]
  simp [as_string, hu]

/-- Witness for C10 at the single invalid byte `0xff`. -/
theorem claim10_witness :
    read_command_of_value (.array 1 [.bulk 1 [255]])
      = .fail (.fromAsString .invalidUtf8) :=
  claim10_utf8_required 1 1 [255] [] (by decide) (by decide)

end Resp
